import Mathlib

/-!
Verification of the `unparam` analysis (src/main.go) against its
natural-language specification.  The program model, the signature
catalogue (`funcSigns`), the stub detector (`dummyImpl`), the candidate
scan (`potential`), the sorting and the reporting loop of `unusedParams`
are embedded shallowly below, translated from the Go source.
-/

set_option autoImplicit false

namespace Unparam

mutual

/-- Shallow embedding of `go/types` types, as far as the analysis needs
them: a type is either an opaque non-function type rendered by its name
(covering basic, named, pointer, ... types) or a function-shaped type
(`*types.Signature`) with ordered parameter and result types. -/

inductive Ty where
  | base : String → Ty
  | func : TyList → TyList → Ty

/-- An ordered list of types (a `*types.Tuple`). -/

inductive TyList where
  | nil : TyList
  | cons : Ty → TyList → TyList
end

mutual

/-- Rendering of a type as by `types.Type.String()`: a function-shaped
type renders as `func(p1, p2) r` / `func(p1) (r1, r2)` / `func(p1)`, any
other type renders as its (package-qualified) name. -/

def Ty.str : Ty → String
  | .base s => s
  | .func ps rs => "func(" ++ TyList.strJoin ps ++ ")" ++ TyList.resStr rs

/-- Rendering of the result tuple of a function type, as
`types.Type.String()` does: nothing for no results, ` r` for a single
result, ` (r1, r2)` for several. -/

def TyList.resStr : TyList → String
  | .nil => ""
  | .cons r .nil => " " ++ Ty.str r
  | .cons r ts => " (" ++ Ty.str r ++ ", " ++ TyList.strJoin ts ++ ")"

/-- Renders the types of a tuple joined by `", "`; the separator logic of
`tupleJoin` in the source. -/

def TyList.strJoin : TyList → String
  | .nil => ""
  | .cons t .nil => Ty.str t
  | .cons t ts => Ty.str t ++ ", " ++ TyList.strJoin ts
end

/-- Conversion of a tuple to an ordinary list, to state iteration over
its elements. -/

def TyList.toList : TyList → List Ty
  | .nil => []
  | .cons t ts => t :: TyList.toList ts

/-- Builds a tuple from an ordinary list (notation helper for concrete
program models). -/

def tl : List Ty → TyList
  | [] => .nil
  | t :: ts => .cons t (tl ts)

/-- Model of `tupleJoin(buf, t)` from the source: appends
`(t1, t2, ...)` to the buffer contents. -/

def tupleJoin (buf : String) (ts : TyList) : String :=
  buf ++ "(" ++ TyList.strJoin ts ++ ")"

/-- Model of `signString`: renders `(params)(results)` ignoring
parameter/result names.  The source resets the shared `signBuf` and joins
both tuples into it; the buffered variant `signStringB` below models the
buffer explicitly. -/

def signString (ps rs : TyList) : String :=
  tupleJoin (tupleJoin "" ps) rs

/-- Buffered model of `signString`: takes the current contents of the
shared `signBuf`, resets it (`signBuf.Reset()`), joins the two tuples and
returns the rendered string together with the new buffer contents. -/

def signStringB (_buf : String) (ps rs : TyList) : String × String :=
  let b0 : String := ""
  let b1 := tupleJoin b0 ps
  let b2 := tupleJoin b1 rs
  (b2, b2)

/-- A `go/token` position rendered by the file set: file, line, column. -/

structure Position where
  file : String
  line : Nat
  col : Nat
deriving DecidableEq

/-- Rendering of `token.Position.String()`: `file:line:column`. -/

def Position.str (p : Position) : String :=
  p.file ++ ":" ++ toString p.line ++ ":" ++ toString p.col

/-- An `ssa.Value` as the stub detector inspects return operands: either
an `*ssa.Const` or any other value. -/

inductive Value where
  | const : String → Value
  | other : String → Value
deriving DecidableEq

/-- Whether a value is an `*ssa.Const`, as tested by the type assertion
in the `*ssa.Return` case of `dummyImpl`. -/

def Value.isConst : Value → Bool
  | .const _ => true
  | .other _ => false

/-- The callee of a call instruction (`x.Call.Value`), exposing its full
textual rendering `String()` and its bare name `Name()`. -/

structure Callee where
  str : String
  name : String
deriving DecidableEq

/-- An `ssa.Instruction`, tagged by the kinds distinguished by
`dummyImpl`'s type switch; `other` covers every remaining kind (jumps,
phis, sends, go/defer, map updates, ...). -/

inductive Instr where
  | alloc | store | unOp | binOp | makeInterface | makeMap | extract
  | indexAddr | fieldAddr | slice | lookup | changeType | typeAssert
  | convert | changeInterface
  | ret (results : List Value)
  | panicInstr
  | call (callee : Callee)
  | other
deriving DecidableEq

/-- Word characters of the regexp `\b` / `\w` classes: ASCII letters,
digits and underscore. -/

def isWordChar (c : Char) : Bool :=
  c.isAlpha || c.isDigit || c == '_'

/-- Case-insensitive literal match: the first `p.length` characters of
`cs`, lower-cased, spell `p`. -/

def startsLower (cs : List Char) (p : List Char) : Bool :=
  ((cs.take p.length).map Char.toLower) == p

/-- Word boundary after `n` characters of `cs`: either the list ends
there or the next character is not a word character.  (Used after a
literal made of word characters, where `\b` reduces to this.) -/

def noWordAt (cs : List Char) (n : Nat) : Bool :=
  match cs.drop n with
  | [] => true
  | c :: _ => !isWordChar c

/-- Whether the regexp `(?i)\blog(ger)?\b|\bf?print` matches at the
current position, given whether the preceding character is a word
character.  All alternatives start with a word character, so the leading
`\b` reduces to the preceding character not being one. -/

def matchHere (prevW : Bool) (cs : List Char) : Bool :=
  !prevW &&
    ((startsLower cs ['l', 'o', 'g'] &&
        (noWordAt cs 3 ||
          (startsLower cs ['l', 'o', 'g', 'g', 'e', 'r'] && noWordAt cs 6)))
      || startsLower cs ['p', 'r', 'i', 'n', 't']
      || startsLower cs ['f', 'p', 'r', 'i', 'n', 't'])

/-- Scans every position of the character list with a positional matcher
`m`, tracking whether the previous character is a word character. -/

def scanWith (m : Bool → List Char → Bool) : Bool → List Char → Bool
  | _, [] => false
  | prevW, c :: rest => m prevW (c :: rest) || scanWith m (isWordChar c) rest

/-- Model of `rxHarmlessCall.MatchString` for the pattern
`(?i)\blog(ger)?\b|\bf?print`. -/

def rxHarmlessCall (s : String) : Bool :=
  scanWith matchHere false s.toList

/-- Model of `dummyImpl`: reports whether a basic block is a dummy
implementation, scanning its instructions in order exactly as the type
switch in the source does. -/

def dummyImpl (blk : List Instr) : Bool :=
  match blk with
  | [] => false
  | i :: rest =>
    match i with
    | .alloc | .store | .unOp | .binOp | .makeInterface | .makeMap
    | .extract | .indexAddr | .fieldAddr | .slice | .lookup | .changeType
    | .typeAssert | .convert | .changeInterface =>
        -- non-trivial expressions in panic/log/print calls
        dummyImpl rest
    | .ret results => results.all Value.isConst
    | .panicInstr => true
    | .call c =>
        if rxHarmlessCall c.str then dummyImpl rest
        else c.name == "throw" -- runtime's panic
    | .other => false

/-- The instruction kinds the stub detector skips over (the first case of
its type switch). -/

def skippable : Instr → Bool
  | .alloc | .store | .unOp | .binOp | .makeInterface | .makeMap
  | .extract | .indexAddr | .fieldAddr | .slice | .lookup | .changeType
  | .typeAssert | .convert | .changeInterface => true
  | _ => false

/-- An `*ssa.Parameter`: declared name (`par.Object().Name()`), source
position (`par.Pos()`, a `token.Pos` offset) and the instructions that
refer to it (`*par.Referrers()`). -/

structure Param where
  name : String
  pos : Nat
  referrers : List Instr
deriving DecidableEq

/-- An `*ssa.Function`: owning package (`none` for builtins), signature
parameter and result tuples, whether the signature has a receiver, the
ordered parameter list and the ordered basic blocks. -/

structure Func where
  pkg : Option Nat
  sigParams : TyList
  sigResults : TyList
  hasRecv : Bool
  params : List Param
  blocks : List (List Instr)

/-- The underlying shape of a `token.TYPE` package member, as switched on
by the catalogue pass: struct (field types), interface (method
signatures), function type, or anything else. -/

inductive Underlying where
  | strct (fields : List Ty)
  | iface (methods : List (TyList × TyList))
  | sig (params results : TyList)
  | otherTy

/-- A package member as the catalogue pass sees it: a function
declaration (`token.FUNC`, carrying its signature), a type declaration
(`token.TYPE`, carrying its underlying shape), or anything else
(constants, variables), which the pass skips. -/

inductive Member where
  | func (sigParams sigResults : TyList)
  | typ (u : Underlying)
  | otherMember

/-- A package: its member declarations. -/

structure Package where
  members : List Member

/-- The whole program model handed to the analysis: all packages of the
program (`prog.AllPackages()`), all functions
(`ssautil.AllFunctions(prog)`, listed in some iteration order), the
identities of the initially loaded packages (`wantPkg`), the file set's
position mapping (`prog.Fset.Position`) and the working directory. -/

structure Prog where
  allPackages : List Package
  funcs : List Func
  wantPkg : List Nat
  fset : Nat → Position
  wd : String

/-- Model of the `addSign` closure: a type contributes its normalized
signature string when it is function-shaped with at least one
parameter. -/

def addSign (t : Ty) : List String :=
  match t with
  | .func ps rs => if ps.toList.length == 0 then [] else [signString ps rs]
  | .base _ => []

/-- The normalized signature strings one package member contributes to
`funcSigns`: for a function declaration, each of its parameter types; for
a struct, each field type; for an interface, each method signature; for a
named function type, the type itself. -/

def memberSigns : Member → List String
  | .func ps _rs => ps.toList.flatMap addSign
  | .typ u =>
    match u with
    | .strct fields => fields.flatMap addSign
    | .iface methods => methods.flatMap (fun m => addSign (.func m.1 m.2))
    | .sig ps rs => addSign (.func ps rs)
    | .otherTy => []
  | .otherMember => []

/-- Model of the `funcSigns` catalogue: the normalized signature strings
contributed by every member of every package of the program.  The source
stores them as map keys and only ever queries membership, so a list
queried with `contains` is observationally the same. -/

def funcSigns (pkgs : List Package) : List String :=
  pkgs.flatMap (fun pkg => pkg.members.flatMap memberSigns)

/-- The per-parameter filter of the scan loop: drop the receiver (index
0 of a method), unnamed or blank parameters, and parameters with at
least one referrer. -/

def keepParam (fn : Func) (ip : Nat × Param) : Bool :=
  !(ip.1 == 0 && fn.hasRecv) &&
    !(ip.2.name == "" || ip.2.name == "_") &&
    ip.2.referrers.length == 0

/-- The candidates one function contributes to `potential`: none when the
function is a builtin (no package), has no blocks, is outside the
requested packages, or its entry block is a dummy implementation;
otherwise its parameters surviving `keepParam`, paired with the function
(`par.Parent()`). -/

def funcCandidates (want : List Nat) (fn : Func) : List (Func × Param) :=
  match fn.pkg with
  | none => [] -- builtin?
  | some p =>
    if fn.blocks.length == 0 then [] -- stub
    else if !(want.contains p) then [] -- not part of given pkgs
    else if dummyImpl (fn.blocks.headD []) then [] -- panic implementation
    else (fn.params.enum.filter (keepParam fn)).map (fun ip => (fn, ip.2))

/-- Model of the `potential` slice: all candidates of all functions, in
function iteration order. -/

def potential (want : List Nat) (funcs : List Func) : List (Func × Param) :=
  funcs.flatMap (funcCandidates want)

/-- The sort order of `sort.Slice`: ascending by parameter position. -/

def candLe (a b : Func × Param) : Prop :=
  a.2.pos ≤ b.2.pos

instance : DecidableRel candLe := fun a b => Nat.decLe a.2.pos b.2.pos

instance : IsTotal (Func × Param) candLe :=
  ⟨fun a b => Nat.le_total a.2.pos b.2.pos⟩

instance : IsTrans (Func × Param) candLe :=
  ⟨fun _ _ _ h h2 => Nat.le_trans h h2⟩

/-- Strict version of the sort order, used to show the sorted list is
unique when the positions are pairwise distinct. -/

def candLt (a b : Func × Param) : Prop :=
  a.2.pos < b.2.pos

instance : IsAntisymm (Func × Param) candLt :=
  ⟨fun _ _ h h2 => absurd h2 (Nat.lt_asymm h)⟩

/-- Model of the `sort.Slice(potential, ...)` step: sorts the candidate
list ascending by position.  (Modelled by a stable insertion sort; the
source's sort is unstable, but both agree whenever the sort keys are
pairwise distinct, which holds for parameters at distinct source
positions.) -/

def sortedPotential (want : List Nat) (funcs : List Func) : List (Func × Param) :=
  (potential want funcs).insertionSort candLe

/-- Model of the working-directory stripping applied to a rendered
position: `strings.HasPrefix(line, wd)` followed by `line[len(wd)+1:]`
(the source slices bytes; characters here, which agrees on valid
UTF-8). -/

def relLine (wd line : String) : String :=
  if wd.data.isPrefixOf line.data then ⟨line.data.drop (wd.length + 1)⟩
  else line

/-- Rendering of one warning: `<position>: <name> is unused`, with the
position string first passed through `relLine`. -/

def renderWarn (wd : String) (fset : Nat → Position) (c : Func × Param) : String :=
  relLine wd (Position.str (fset c.2.pos)) ++ ": " ++ c.2.name ++ " is unused"

/-- The sorted candidates surviving the catalogue filter: a candidate is
dropped when its function's normalized signature is in `funcSigns`
("could be required"). -/

def reportedPairs (prog : Prog) : List (Func × Param) :=
  (sortedPotential prog.wantPkg prog.funcs).filter
    (fun c => !(funcSigns prog.allPackages).contains
        (signString c.1.sigParams c.1.sigResults))

/-- Model of `unusedParams` (after the external loading steps): the
warning lines produced for the given program model, in order. -/

def unusedParams (prog : Prog) : List String :=
  (reportedPairs prog).map (renderWarn prog.wd prog.fset)

/-! ### Concrete program models for witnesses and counterexamples -/

def tyInt : Ty := .base "int"

def tyStr : Ty := .base "string"

/-- A used parameter: one referrer. -/

def parUsed : Param := ⟨"y", 5, [Instr.other]⟩

/-- A function with one unused parameter `x` and one used parameter
`y`, and a body doing real work. -/

def fnW1 : Func :=
  ⟨some 0, tl [tyInt, tyStr], .nil, false, [⟨"x", 1, []⟩, parUsed],
    [[Instr.other]]⟩

def progW1 : Prog :=
  ⟨[⟨[Member.func (tl [tyInt, tyStr]) .nil]⟩], [fnW1], [0],
    fun n => ⟨"m.go", n, 1⟩, "/w"⟩

/-- An empty-body function: entry block is a bare `return`; both its
parameters are named and unused. -/

def fnW10 : Func :=
  ⟨some 0, tl [tyInt, tyStr], .nil, false,
    [⟨"x", 4, []⟩, ⟨"y", 6, []⟩], [[Instr.ret []]]⟩

def progW10 : Prog :=
  ⟨[⟨[Member.func (tl [tyInt, tyStr]) .nil]⟩], [fnW10], [0],
    fun n => ⟨"m.go", n, 1⟩, "/w"⟩

/-- Entry block `return 0` (a constant); one unused named parameter. -/

def fnC2a : Func :=
  ⟨some 0, tl [tyInt], tl [tyInt], false, [⟨"a", 11, []⟩],
    [[Instr.ret [Value.const "0:int"]]]⟩

/-- Entry block `panic("unimplemented")`: boxing then panic; one unused
named parameter. -/

def fnC2b : Func :=
  ⟨some 0, tl [tyInt], .nil, false, [⟨"b", 12, []⟩],
    [[Instr.makeInterface, Instr.panicInstr]]⟩

/-- Entry block `x := a + b; return x`: binary operation, then return of
a non-constant; parameter `c` unused. -/

def fnC2c : Func :=
  ⟨some 0, tl [tyInt, tyInt, tyInt], tl [tyInt], false,
    [⟨"a", 13, [Instr.binOp]⟩, ⟨"b", 14, [Instr.binOp]⟩, ⟨"c", 15, []⟩],
    [[Instr.binOp, Instr.ret [Value.other "x"]]]⟩

def progC2 : Prog :=
  ⟨[⟨[Member.func (tl [tyInt]) (tl [tyInt]),
      Member.func (tl [tyInt]) .nil,
      Member.func (tl [tyInt, tyInt, tyInt]) (tl [tyInt])]⟩],
    [fnC2a, fnC2b, fnC2c], [0], fun n => ⟨"m.go", n, 1⟩, "/w"⟩

/-- The unused second parameter of the C3 example function. -/

def parY : Param := ⟨"y", 2, []⟩

/-- A concrete function `F(x int, y string)` with `x` used, `y` unused,
and a body doing real work. -/

def fnW3 : Func :=
  ⟨some 0, tl [tyInt, tyStr], .nil, false, [⟨"x", 1, [Instr.other]⟩, parY],
    [[Instr.other]]⟩

/-- An abstract contract (interface) member declaring a method
`M(int, string)` with the same normalized signature as `fnW3`. -/

def mbIface : Member := .typ (.iface [(tl [tyInt, tyStr], TyList.nil)])

/-- Program with the matching contract type present. -/

def progW3A : Prog :=
  ⟨[⟨[Member.func (tl [tyInt, tyStr]) .nil, mbIface]⟩], [fnW3], [0],
    fun n => ⟨"m.go", n, 1⟩, "/w"⟩

/-- The same program without the contract type. -/

def progW3B : Prog :=
  ⟨[⟨[Member.func (tl [tyInt, tyStr]) .nil]⟩], [fnW3], [0],
    fun n => ⟨"m.go", n, 1⟩, "/w"⟩

/-- C4 (as the spec states it) is refuted: type of the callback parameter
of `H`. -/

def cbTy : Ty := .func (tl [tyInt]) .nil

/-- The function `H(cb func(int)) { }`: empty body, so its entry block is
a bare `return`; `cb` is named and unused. -/

def fnH : Func :=
  ⟨some 0, tl [cbTy], .nil, false, [⟨"cb", 10, []⟩], [[Instr.ret []]]⟩

/-- The root package containing `H` (its only member); no other
function-typed field, contract method, or function-type declaration
anywhere has normalized signature `(int)()` apart from the automatic
entry for `H`'s own parameter type. -/

def progC4 : Prog :=
  ⟨[⟨[Member.func (tl [cbTy]) .nil]⟩], [fnH], [0],
    fun n => ⟨"a.go", n, 6⟩, "/w"⟩

/-- C6 counterexample program: a single package whose only member is a
standalone function declaration `f(cb func(func(int)))`.  The catalogue
receives the direct parameter type `func(func(int))` but not the nested
function-shaped type `func(int)`, refuting the claimed recursion. -/

def pkgC6 : Package :=
  ⟨[Member.func (tl [Ty.func (tl [cbTy]) .nil]) .nil]⟩

/-- Position matcher for the harmless-call pattern exactly as the claim
words it (a second definition following the claim's words, for comparison
with `matchHere` from the source): a case-insensitive word-boundary
whole-word occurrence of `log` or `logger`, or an occurrence of `print`
starting at a word boundary — with no provision for the `f?` of the
actual pattern. -/

def matchHereSpec (prevW : Bool) (cs : List Char) : Bool :=
  !prevW &&
    ((startsLower cs ['l', 'o', 'g'] &&
        (noWordAt cs 3 ||
          (startsLower cs ['l', 'o', 'g', 'g', 'e', 'r'] && noWordAt cs 6)))
      || startsLower cs ['p', 'r', 'i', 'n', 't'])

/-- The harmlessness test as the claim describes it, scanning all
positions with `matchHereSpec`. -/

def specHarmless (s : String) : Bool :=
  scanWith matchHereSpec false s.toList

/-- Whether the character at index `i` is a word character (`false` out
of range). -/

def wordAt (cs : List Char) (i : Nat) : Bool :=
  match cs[i]? with
  | some c => isWordChar c
  | none => false

/-- The word-character status of the character preceding index `i`;
`prevW` stands in for the character before index 0. -/

def prevWAt (prevW : Bool) (cs : List Char) : Nat → Bool
  | 0 => prevW
  | i + 1 => wordAt cs i

/-- The actual pattern, spelled out position-wise: a word boundary
followed by whole-word `log` or `logger`, or by `print` optionally
preceded by `f`, case-insensitively. -/

def harmlessAt (cs : List Char) (i : Nat) : Prop :=
  (i = 0 ∨ wordAt cs (i - 1) = false) ∧
    ((startsLower (cs.drop i) ['l', 'o', 'g'] = true ∧
        (noWordAt cs (i + 3) = true ∨
          (startsLower (cs.drop i) ['l', 'o', 'g', 'g', 'e', 'r'] = true ∧
            noWordAt cs (i + 6) = true))) ∨
      startsLower (cs.drop i) ['p', 'r', 'i', 'n', 't'] = true ∨
      startsLower (cs.drop i) ['f', 'p', 'r', 'i', 'n', 't'] = true)

/-- Strict lexicographic order on character lists by character code. -/
def charsLt : List Char → List Char → Bool
  | [], [] => false
  | [], _ :: _ => true
  | _ :: _, [] => false
  | a :: as, b :: bs =>
    if a.toNat < b.toNat then true
    else if b.toNat < a.toNat then false
    else charsLt as bs

/-- Strict lexicographic order on file names, the file component of the
(file, line, column) key. -/
def fileLt (a b : String) : Bool :=
  charsLt a.data b.data

/-- Lexicographic order on rendered positions: by file, then line, then
column. -/
def posKeyLe (a b : Position) : Prop :=
  fileLt a.file b.file = true ∨
    (a.file = b.file ∧
      (a.line < b.line ∨ (a.line = b.line ∧ a.col ≤ b.col)))

/-- A function with two unused named parameters at increasing
positions. -/

def fnW7 : Func :=
  ⟨some 0, tl [tyInt, tyInt], .nil, false,
    [⟨"a", 21, []⟩, ⟨"b", 22, []⟩], [[Instr.other]]⟩

def progW7 : Prog :=
  ⟨[⟨[Member.func (tl [tyInt, tyInt]) .nil]⟩], [fnW7], [0],
    fun n => ⟨"m.go", n, 3⟩, "/w"⟩

/-- A function with two unused named parameters whose offsets land in
two different files of the C7 counterexample file set. -/
def fnC7 : Func :=
  ⟨some 0, tl [tyInt, tyInt], .nil, false,
    [⟨"a", 10, []⟩, ⟨"b", 20, []⟩], [[Instr.other]]⟩

/-- C7 counterexample program: the file set registered `z.go` (offsets
up to 15) before `a.go` (offsets above 15), so the smaller offsets render
into the lexicographically larger file name — which `go/token` permits,
since offsets follow file registration order, not file-name order. -/
def progC7 : Prog :=
  ⟨[⟨[Member.func (tl [tyInt, tyInt]) .nil]⟩], [fnC7], [0],
    fun n => if n ≤ 15 then ⟨"z.go", 1, 1⟩ else ⟨"a.go", 1, 1⟩, "/w"⟩

/-- A function with one unused named parameter, for the C8 programs. -/

def fnW8 : Func :=
  ⟨some 0, tl [tyInt], .nil, false, [⟨"x", 1, []⟩], [[Instr.other]]⟩

/-- C8 counterexample program: the working directory `/a/b` is a string
prefix of the rendered file `/a/bc/f.go`, although that file is not
rooted under the directory `/a/b`. -/

def progC8 : Prog :=
  ⟨[⟨[Member.func (tl [tyInt]) .nil]⟩], [fnW8], [0],
    fun _ => ⟨"/a/bc/f.go", 3, 5⟩, "/a/b"⟩

/-! ### The shared signature buffer, threaded explicitly (for C9) -/

/-- Threads the shared signature buffer through a traversal that emits
items. -/

def stFlatMap {α β : Type} (f : String → α → List β × String) :
    String → List α → List β × String
  | buf, [] => ([], buf)
  | buf, a :: as =>
    ((f buf a).1 ++ (stFlatMap f (f buf a).2 as).1,
      (stFlatMap f (f buf a).2 as).2)

/-- Buffered `addSign`: renders through the shared buffer. -/

def addSignB (buf : String) (t : Ty) : List String × String :=
  match t with
  | .func ps rs =>
    if ps.toList.length == 0 then ([], buf)
    else ([(signStringB buf ps rs).1], (signStringB buf ps rs).2)
  | .base _ => ([], buf)

/-- Buffered `memberSigns`. -/

def memberSignsB (buf : String) : Member → List String × String
  | .func ps _rs => stFlatMap addSignB buf ps.toList
  | .typ u =>
    match u with
    | .strct fields => stFlatMap addSignB buf fields
    | .iface methods =>
        stFlatMap (fun b m => addSignB b (Ty.func m.1 m.2)) buf methods
    | .sig ps rs => addSignB buf (Ty.func ps rs)
    | .otherTy => ([], buf)
  | .otherMember => ([], buf)

/-- Buffered `funcSigns`: the catalogue pass with the buffer threaded
through every member. -/

def funcSignsB (buf : String) (pkgs : List Package) : List String × String :=
  stFlatMap (fun b pkg => stFlatMap memberSignsB b pkg.members) buf pkgs

/-- Buffered reporting loop: filters the sorted candidates against the
catalogue, rendering each candidate's signature through the shared
buffer. -/

def reportB (signs : List String) (wd : String) (fset : Nat → Position) :
    String → List (Func × Param) → List String × String
  | buf, [] => ([], buf)
  | buf, c :: cs =>
    if signs.contains (signStringB buf c.1.sigParams c.1.sigResults).1 then
      reportB signs wd fset (signStringB buf c.1.sigParams c.1.sigResults).2 cs
    else
      (renderWarn wd fset c ::
          (reportB signs wd fset
            (signStringB buf c.1.sigParams c.1.sigResults).2 cs).1,
        (reportB signs wd fset
          (signStringB buf c.1.sigParams c.1.sigResults).2 cs).2)

/-- The whole analysis with the shared signature buffer threaded
explicitly: the catalogue pass writes through it, then the reporting loop
does; the final buffer contents are returned alongside the warnings. -/

def unusedParamsB (prog : Prog) (buf : String) : List String × String :=
  reportB (funcSignsB buf prog.allPackages).1 prog.wd prog.fset
    (funcSignsB buf prog.allPackages).2
    (sortedPotential prog.wantPkg prog.funcs)

def fnW9a : Func :=
  ⟨some 0, tl [tyInt], .nil, false, [⟨"a", 31, []⟩], [[Instr.other]]⟩

def fnW9b : Func :=
  ⟨some 0, tl [tyStr], .nil, false, [⟨"b", 32, []⟩], [[Instr.other]]⟩

/-! ### Theorems -/

/-- The string returned by the buffered `signString` does not depend on
the incoming buffer contents, because of the leading reset. -/
theorem signStringB_fst (buf : String) (ps rs : TyList) :
    (signStringB buf ps rs).1 = signString ps rs := rfl

/-- Instructions the detector skips do not change its verdict on the
rest of the block. -/
theorem dummyImpl_append (pre rest : List Instr)
    (h : ∀ i ∈ pre, skippable i = true) :
    dummyImpl (pre ++ rest) = dummyImpl rest := by
  induction pre with
  | nil => rfl
  | cons i pre ih =>
    have hi := h i (List.mem_cons_self i pre)
    have ih2 := ih (fun j hj => h j (List.mem_cons_of_mem i hj))
    cases i <;> simp_all [skippable, dummyImpl]

/-- Decomposition of membership in a function's candidate list: the pair
carries the function itself, the function passed every skip rule, and the
parameter passed the per-parameter filter at its index. -/
theorem mem_funcCandidates {want : List Nat} {fn : Func} {c : Func × Param}
    (h : c ∈ funcCandidates want fn) :
    c.1 = fn ∧ (∃ p, fn.pkg = some p ∧ want.contains p = true) ∧
      fn.blocks.length ≠ 0 ∧ dummyImpl (fn.blocks.headD []) = false ∧
      ∃ i, (i, c.2) ∈ fn.params.enum ∧ keepParam fn (i, c.2) = true := by
  unfold funcCandidates at h
  split at h
  · simp at h
  next p hp =>
    split at h
    · simp at h
    next hb =>
      split at h
      · simp at h
      next hw =>
        split at h
        · simp at h
        next hd =>
          obtain ⟨ip, hip, hc⟩ := List.mem_map.mp h
          obtain ⟨hip1, hip2⟩ := List.mem_filter.mp hip
          refine ⟨by rw [← hc], ⟨p, hp, by simpa using hw⟩,
            by simpa using hb, by simpa using hd, ip.1, ?_, ?_⟩
          · have : ip.2 = c.2 := by rw [← hc]
            rw [← this]; exact hip1
          · have : ip.2 = c.2 := by rw [← hc]
            rw [← this]; exact hip2

/-- Introduction rule for a function's candidate list. -/
theorem mem_funcCandidates_intro {want : List Nat} {fn : Func} {p i : Nat}
    {par : Param} (hp : fn.pkg = some p) (hw : want.contains p = true)
    (hb : fn.blocks.length ≠ 0) (hd : dummyImpl (fn.blocks.headD []) = false)
    (hi : (i, par) ∈ fn.params.enum) (hk : keepParam fn (i, par) = true) :
    (fn, par) ∈ funcCandidates want fn := by
  have hb2 : (fn.blocks.length == 0) = false := by simpa using hb
  have hw2 : (!want.contains p) = false := by rw [hw]; rfl
  simp only [funcCandidates, hp, hb2, hw2, hd, Bool.false_eq_true, if_false]
  exact List.mem_map.mpr ⟨(i, par), List.mem_filter.mpr ⟨hi, hk⟩, rfl⟩

/-- Membership in the sorted candidate list is membership in some
function's candidates. -/
theorem mem_sortedPotential {want : List Nat} {funcs : List Func}
    {c : Func × Param} :
    c ∈ sortedPotential want funcs ↔
      ∃ fn, fn ∈ funcs ∧ c ∈ funcCandidates want fn := by
  unfold sortedPotential potential
  rw [List.mem_insertionSort, List.mem_flatMap]

/-- Membership in the reported list: the candidate survived the sort and
the catalogue filter. -/
theorem mem_reportedPairs {prog : Prog} {c : Func × Param} :
    c ∈ reportedPairs prog ↔
      c ∈ sortedPotential prog.wantPkg prog.funcs ∧
        (funcSigns prog.allPackages).contains
          (signString c.1.sigParams c.1.sigResults) = false := by
  unfold reportedPairs
  rw [List.mem_filter, Bool.not_eq_true']

/-- Introduction rule for the reported list, from a function of the
program passing every rule whose signature is not in the catalogue. -/
theorem mem_reportedPairs_intro {prog : Prog} {fn : Func} {p i : Nat}
    {par : Param} (hfn : fn ∈ prog.funcs) (hp : fn.pkg = some p)
    (hw : prog.wantPkg.contains p = true) (hb : fn.blocks.length ≠ 0)
    (hd : dummyImpl (fn.blocks.headD []) = false)
    (hi : (i, par) ∈ fn.params.enum) (hk : keepParam fn (i, par) = true)
    (hs : (funcSigns prog.allPackages).contains
        (signString fn.sigParams fn.sigResults) = false) :
    (fn, par) ∈ reportedPairs prog :=
  mem_reportedPairs.mpr
    ⟨mem_sortedPotential.mpr
        ⟨fn, hfn, mem_funcCandidates_intro hp hw hb hd hi hk⟩, hs⟩

/-- A function whose entry block the detector classifies as a dummy
implementation contributes no reported pair. -/
theorem stub_not_reported {prog : Prog} {fn : Func}
    (hd : dummyImpl (fn.blocks.headD []) = true) :
    ∀ par : Param, (fn, par) ∉ reportedPairs prog := by
  intro par hmem
  obtain ⟨hsp, _⟩ := mem_reportedPairs.mp hmem
  obtain ⟨fn2, _, hc⟩ := mem_sortedPotential.mp hsp
  obtain ⟨hfst, _, _, hd2, _⟩ := mem_funcCandidates hc
  rw [show (fn, par).1 = fn from rfl] at hfst
  rw [← hfst] at hd2
  rw [hd] at hd2
  exact Bool.true_eq_false.mp hd2

/-- Every reported parameter has an empty referrer set. -/
theorem reported_referrers_empty {prog : Prog} {c : Func × Param}
    (h : c ∈ reportedPairs prog) : c.2.referrers.length = 0 := by
  obtain ⟨hsp, _⟩ := mem_reportedPairs.mp h
  obtain ⟨fn2, _, hc⟩ := mem_sortedPotential.mp hsp
  obtain ⟨_, _, _, _, i, _, hk⟩ := mem_funcCandidates hc
  have := (Bool.and_eq_true _ _).mp hk
  simpa using this.2

/-- C1: soundness of the "used" exclusion.  A parameter whose referrer
set is non-empty never appears among the reported pairs (and hence no
warning line — `unusedParams` maps `reportedPairs` through `renderWarn` —
is ever produced for it), for every analyzed program. -/
theorem c1_used_exclusion_sound (prog : Prog) (par : Param)
    (h : 0 < par.referrers.length) :
    ∀ c ∈ reportedPairs prog, c.2 ≠ par := by
  intro c hc heq
  have h0 := reported_referrers_empty hc
  rw [heq] at h0
  omega

/-- Witness for C1 at a concrete program in which another parameter is
in fact reported. -/
theorem c1_witness :
    0 < parUsed.referrers.length ∧
      ∀ c ∈ reportedPairs progW1, c.2 ≠ parUsed :=
  ⟨by decide, c1_used_exclusion_sound progW1 parUsed (by decide)⟩

/-- C10: a function whose entry block consists of detector-skippable
instructions followed by a `return` with zero result values — in
particular any function with an empty body, whose entry block is a bare
`return` — is classified as a dummy implementation (the "all results are
constants" check is vacuous), and none of its parameters is ever
reported, regardless of how many unused named parameters it has. -/
theorem c10_zero_result_return_is_stub (prog : Prog) (fn : Func)
    (pre post : List Instr) (rest : List (List Instr))
    (hb : fn.blocks = (pre ++ Instr.ret [] :: post) :: rest)
    (hpre : ∀ i ∈ pre, skippable i = true) :
    dummyImpl (pre ++ Instr.ret [] :: post) = true ∧
      ∀ par : Param, (fn, par) ∉ reportedPairs prog := by
  have hd : dummyImpl (pre ++ Instr.ret [] :: post) = true := by
    rw [dummyImpl_append pre _ hpre]; rfl
  exact ⟨hd, stub_not_reported (by rw [hb]; exact hd)⟩

/-- Witness for C10: the empty-body function with two unused named
parameters yields no reported pair. -/
theorem c10_witness :
    dummyImpl ([] ++ Instr.ret [] :: []) = true ∧
      ∀ par : Param, (fnW10, par) ∉ reportedPairs progW10 :=
  c10_zero_result_return_is_stub progW10 fnW10 [] [] [] rfl
    (fun i h => absurd h (List.not_mem_nil i))

/-- C2: stub suppression.  (i) A function whose entry block is exactly a
return of a constant produces no reported pair; (ii) a function whose
entry block is exactly a panic of a constant argument (in the SSA model:
boxing of the constant followed by the panic) produces none; (iii) an
entry block that computes a non-constant value with a binary operation
and returns it is not classified as a dummy implementation, and (iv) an
unused named non-receiver parameter of such a function is reported,
absent any other exclusion (function analyzable, catalogue miss). -/
theorem c2_stub_suppression :
    (∀ (prog : Prog) (fn : Func) (k : String) (rest : List (List Instr)),
        fn.blocks = [Instr.ret [Value.const k]] :: rest →
        ∀ par : Param, (fn, par) ∉ reportedPairs prog) ∧
    (∀ (prog : Prog) (fn : Func) (rest : List (List Instr)),
        fn.blocks = [Instr.makeInterface, Instr.panicInstr] :: rest →
        ∀ par : Param, (fn, par) ∉ reportedPairs prog) ∧
    (∀ v : String, dummyImpl [Instr.binOp, Instr.ret [Value.other v]] = false) ∧
    (∀ (prog : Prog) (fn : Func) (p i : Nat) (par : Param) (v : String),
        fn ∈ prog.funcs → fn.pkg = some p → prog.wantPkg.contains p = true →
        fn.blocks = [[Instr.binOp, Instr.ret [Value.other v]]] →
        fn.params[i]? = some par → ¬(i = 0 ∧ fn.hasRecv = true) →
        par.name ≠ "" → par.name ≠ "_" → par.referrers = [] →
        (funcSigns prog.allPackages).contains
          (signString fn.sigParams fn.sigResults) = false →
        (fn, par) ∈ reportedPairs prog) := by
  refine ⟨?_, ?_, ?_, ?_⟩
  · intro prog fn k rest hb par
    exact stub_not_reported (by rw [hb]; rfl) par
  · intro prog fn rest hb par
    exact stub_not_reported (by rw [hb]; rfl) par
  · intro v; rfl
  · intro prog fn p i par v hfn hp hw hb hi hir hn1 hn2 hrefs hs
    have hRecv : (i == 0 && fn.hasRecv) = false := by
      cases hrecv : fn.hasRecv
      · simp
      · have hne : i ≠ 0 := fun h0 => hir ⟨h0, hrecv⟩
        simp [hne]
    have hk : keepParam fn (i, par) = true := by
      simp [keepParam, hRecv, hn1, hn2, hrefs]
    exact mem_reportedPairs_intro hfn hp hw (by rw [hb]; simp)
      (by rw [hb]; rfl) (List.mk_mem_enum_iff_getElem?.mpr hi) hk hs

/-- Witness for C2 at a concrete three-function program. -/
theorem c2_witness :
    (∀ par : Param, (fnC2a, par) ∉ reportedPairs progC2) ∧
      (∀ par : Param, (fnC2b, par) ∉ reportedPairs progC2) ∧
      dummyImpl [Instr.binOp, Instr.ret [Value.other "x"]] = false ∧
      (fnC2c, ⟨"c", 15, []⟩) ∈ reportedPairs progC2 :=
  ⟨fun par => c2_stub_suppression.1 progC2 fnC2a "0:int" [] rfl par,
   fun par => c2_stub_suppression.2.1 progC2 fnC2b [] rfl par,
   c2_stub_suppression.2.2.1 "x",
   c2_stub_suppression.2.2.2 progC2 fnC2c 0 2 ⟨"c", 15, []⟩ "x"
     (List.Mem.tail _ (List.Mem.tail _ (List.Mem.head _))) rfl rfl rfl rfl
     (by decide) (by decide) (by decide) rfl rfl⟩

/-- C3: contract suppression.  (i) If any member of any package of the
program contributes a normalized signature string equal to that of a
function F's own signature, then no parameter of F is ever reported;
(ii) if F's normalized signature is not in the catalogue, an unused,
named, non-receiver parameter of an analyzable F (in a requested
package, with a body, not a detected stub) is reported. -/
theorem c3_contract_suppression :
    (∀ (prog : Prog) (pkg : Package) (mb : Member) (s : String),
        pkg ∈ prog.allPackages → mb ∈ pkg.members → s ∈ memberSigns mb →
        ∀ (fn : Func) (par : Param),
          signString fn.sigParams fn.sigResults = s →
          (fn, par) ∉ reportedPairs prog) ∧
    (∀ (prog : Prog) (fn : Func) (p i : Nat) (par : Param),
        fn ∈ prog.funcs → fn.pkg = some p → prog.wantPkg.contains p = true →
        fn.blocks.length ≠ 0 → dummyImpl (fn.blocks.headD []) = false →
        fn.params[i]? = some par → ¬(i = 0 ∧ fn.hasRecv = true) →
        par.name ≠ "" → par.name ≠ "_" → par.referrers = [] →
        (funcSigns prog.allPackages).contains
          (signString fn.sigParams fn.sigResults) = false →
        (fn, par) ∈ reportedPairs prog) := by
  constructor
  · intro prog pkg mb s hpkg hmb hs fn par hsig hmem
    have hin : s ∈ funcSigns prog.allPackages :=
      List.mem_flatMap.mpr ⟨pkg, hpkg, List.mem_flatMap.mpr ⟨mb, hmb, hs⟩⟩
    have hcont : (funcSigns prog.allPackages).contains s = true :=
      List.elem_iff.mpr hin
    obtain ⟨_, hfalse⟩ := mem_reportedPairs.mp hmem
    rw [show (fn, par).1 = fn from rfl, hsig] at hfalse
    rw [hcont] at hfalse
    exact Bool.true_eq_false.mp hfalse
  · intro prog fn p i par hfn hp hw hb hd hi hir hn1 hn2 hrefs hs
    have hRecv : (i == 0 && fn.hasRecv) = false := by
      cases hrecv : fn.hasRecv
      · simp
      · have hne : i ≠ 0 := fun h0 => hir ⟨h0, hrecv⟩
        simp [hne]
    have hk : keepParam fn (i, par) = true := by
      simp [keepParam, hRecv, hn1, hn2, hrefs]
    exact mem_reportedPairs_intro hfn hp hw hb hd
      (List.mk_mem_enum_iff_getElem?.mpr hi) hk hs

/-- Witness for C3: with the interface present `y` is not reported; with
it absent `y` is reported. -/
theorem c3_witness :
    (fnW3, parY) ∉ reportedPairs progW3A ∧
      (fnW3, parY) ∈ reportedPairs progW3B :=
  ⟨c3_contract_suppression.1 progW3A ⟨[Member.func (tl [tyInt, tyStr]) .nil,
        mbIface]⟩ mbIface (signString (tl [tyInt, tyStr]) .nil)
      (List.Mem.head _) (List.Mem.tail _ (List.Mem.head _))
      (List.Mem.head _) fnW3 parY rfl,
   c3_contract_suppression.2 progW3B fnW3 0 1 parY (List.Mem.head _) rfl rfl
     (by decide) rfl rfl (by decide) (by decide) (by decide) rfl rfl⟩

/-- C4 counterexample: the claim asserts exactly one warning (for `cb`),
but the analysis produces none — `H`'s empty body means a zero-result
return, which `dummyImpl` classifies as a stub. -/
theorem c4_counterexample : (unusedParams progC4).length ≠ 1 := by decide

/-- C4 amended: for the root-package function `H(cb func(int))` with an
empty body and unused `cb`, the analysis produces no warning at all,
because the zero-result return of the empty body makes the stub detector
classify `H` as a dummy implementation. -/
theorem c4_amended :
    dummyImpl [Instr.ret []] = true ∧ unusedParams progC4 = [] :=
  ⟨rfl, rfl⟩

/-- C6 counterexample: the nested function-shaped parameter type
`func(int)` (normalized `(int)()`) is missing from the catalogue, while
the direct parameter type `func(func(int))` (normalized `(func(int))()`)
is present. -/
theorem c6_counterexample :
    (funcSigns [pkgC6]).contains "(int)()" = false ∧
      (funcSigns [pkgC6]).contains "(func(int))()" = true := by
  exact ⟨rfl, rfl⟩

/-- C6 amended: for every standalone function declaration in any
package, the signature catalogue contains the normalized signature of
every DIRECT function-shaped parameter type that has at least one
parameter; function-shaped types nested deeper (as parameters of
function-typed parameters) are not collected. -/
theorem c6_catalog_direct_params (pkgs : List Package) (pkg : Package)
    (ps rs tps trs : TyList) (t : Ty)
    (hpkg : pkg ∈ pkgs) (hmb : Member.func ps rs ∈ pkg.members)
    (ht : t ∈ ps.toList) (hfunc : t = Ty.func tps trs)
    (hnz : tps.toList.length ≠ 0) :
    (funcSigns pkgs).contains (signString tps trs) = true := by
  have hnz2 : (tps.toList.length == 0) = false := by simpa using hnz
  have hadd : signString tps trs ∈ addSign t := by
    rw [hfunc]
    simp [addSign, hnz2]
  have hin : signString tps trs ∈ funcSigns pkgs :=
    List.mem_flatMap.mpr ⟨pkg, hpkg, List.mem_flatMap.mpr
      ⟨Member.func ps rs, hmb, List.mem_flatMap.mpr ⟨t, ht, hadd⟩⟩⟩
  exact List.elem_iff.mpr hin

/-- Witness for C6 amended, at the same nested-callback program: the
direct parameter type's signature is in the catalogue. -/
theorem c6_witness :
    (funcSigns [pkgC6]).contains (signString (tl [cbTy]) .nil) = true :=
  c6_catalog_direct_params [pkgC6] pkgC6 (tl [Ty.func (tl [cbTy]) .nil])
    .nil (tl [cbTy]) .nil (Ty.func (tl [cbTy]) .nil) (List.Mem.head _)
    (List.Mem.head _) (List.Mem.head _) rfl (by decide)

/-- C5 counterexample: for the callee name `fprintf` the claim's pattern
(word-boundary `log`/`logger` or `print`-prefixed occurrence) does not
match, so by the claim the scan should terminate returning
`"fprintf" == "throw"`, i.e. `false`; but the actual pattern also
matches `f?print`, so the detector treats the call as harmless, keeps
scanning, and classifies the block as a stub. -/
theorem c5_counterexample :
    dummyImpl [Instr.call ⟨"fprintf", "fprintf"⟩,
        Instr.ret [Value.const "0:int"]] = true ∧
      specHarmless "fprintf" = false ∧
      (("fprintf" : String) == "throw") = false :=
  ⟨rfl, by decide, by decide⟩

theorem prevWAt_cons (prevW : Bool) (c : Char) (rest : List Char) (j : Nat) :
    prevWAt prevW (c :: rest) (j + 1) = prevWAt (isWordChar c) rest j := by
  cases j with
  | zero => simp [prevWAt, wordAt]
  | succ k => simp [prevWAt, wordAt]

/-- The position scanner finds a match exactly when some position
matches, with the correct preceding-character status at that
position. -/
theorem scanWith_iff (m : Bool → List Char → Bool) :
    ∀ (cs : List Char) (prevW : Bool),
      scanWith m prevW cs = true ↔
        ∃ i, i < cs.length ∧ m (prevWAt prevW cs i) (cs.drop i) = true := by
  intro cs
  induction cs with
  | nil => intro prevW; simp [scanWith]
  | cons c rest ih =>
    intro prevW
    simp only [scanWith, Bool.or_eq_true, ih]
    constructor
    · rintro (h | ⟨i, hlt, hm⟩)
      · exact ⟨0, Nat.succ_pos _, h⟩
      · refine ⟨i + 1, Nat.succ_lt_succ hlt, ?_⟩
        rw [prevWAt_cons]
        simpa using hm
    · rintro ⟨i, hlt, hm⟩
      cases i with
      | zero => exact Or.inl (by simpa [prevWAt] using hm)
      | succ j =>
        refine Or.inr ⟨j, Nat.lt_of_succ_lt_succ hlt, ?_⟩
        rw [prevWAt_cons] at hm
        simpa using hm

theorem noWordAt_drop (cs : List Char) (i n : Nat) :
    noWordAt (cs.drop i) n = noWordAt cs (i + n) := by
  unfold noWordAt
  rw [List.drop_drop]

theorem matchHere_iff_harmlessAt (cs : List Char) (i : Nat) :
    matchHere (prevWAt false cs i) (cs.drop i) = true ↔ harmlessAt cs i := by
  unfold matchHere harmlessAt
  rw [Bool.and_eq_true, Bool.or_eq_true, Bool.or_eq_true, Bool.and_eq_true,
    Bool.or_eq_true, Bool.and_eq_true, noWordAt_drop, noWordAt_drop]
  constructor
  · rintro ⟨hbound, halt⟩
    refine ⟨?_, by tauto⟩
    cases i with
    | zero => exact Or.inl rfl
    | succ j =>
      refine Or.inr ?_
      simpa [prevWAt] using hbound
  · rintro ⟨hbound, halt⟩
    refine ⟨?_, by tauto⟩
    cases i with
    | zero => rfl
    | succ j =>
      rcases hbound with h0 | hw
      · exact absurd h0 (Nat.succ_ne_zero j)
      · simpa [prevWAt] using hw

theorem startsLower_length {cs p : List Char} (h : startsLower cs p = true) :
    p.length ≤ cs.length := by
  unfold startsLower at h
  have heq : (cs.take p.length).map Char.toLower = p := by simpa using h
  have := congrArg List.length heq
  simp [List.length_take] at this
  omega

theorem harmlessAt_lt {cs : List Char} {i : Nat} (h : harmlessAt cs i) :
    i < cs.length := by
  obtain ⟨-, h2⟩ := h
  rcases h2 with ⟨h3, -⟩ | h3 | h3 <;>
    (have hsl := startsLower_length h3
     simp [List.length_drop] at hsl
     omega)

/-- C5 amended: at a call instruction the detector continues scanning
exactly when the callee's rendered name matches the harmless pattern,
and otherwise stops, answering whether the bare name is the runtime's
fatal-abort primitive `throw`; and the harmless pattern holds exactly
when some position carries, after a word boundary, a case-insensitive
whole-word `log` or `logger`, or `print` optionally preceded by `f`. -/
theorem c5_harmless_call_rule :
    (∀ (c : Callee) (rest : List Instr),
        dummyImpl (Instr.call c :: rest) =
          if rxHarmlessCall c.str then dummyImpl rest
          else (c.name == "throw")) ∧
    (∀ s : String, rxHarmlessCall s = true ↔ ∃ i, harmlessAt s.toList i) := by
  refine ⟨fun c rest => rfl, fun s => ?_⟩
  rw [rxHarmlessCall, scanWith_iff]
  constructor
  · rintro ⟨i, _, hm⟩
    exact ⟨i, (matchHere_iff_harmlessAt _ _).mp hm⟩
  · rintro ⟨i, hh⟩
    exact ⟨i, harmlessAt_lt hh, (matchHere_iff_harmlessAt _ _).mpr hh⟩

/-- Witness for C5 amended: the rule applied to a harmless logging call
followed by a constant return, and the positional characterization
instantiated at `fmt.Println` (boundary before `P` at index 4). -/
theorem c5_witness :
    dummyImpl [Instr.call ⟨"log.Print", "Print"⟩,
        Instr.ret [Value.const "0:int"]] =
      (if rxHarmlessCall "log.Print" then
        dummyImpl [Instr.ret [Value.const "0:int"]]
      else (("Print" : String) == "throw")) ∧
      ∃ i, harmlessAt ("fmt.Println" : String).toList i :=
  ⟨c5_harmless_call_rule.1 ⟨"log.Print", "Print"⟩ [Instr.ret [Value.const "0:int"]],
   (c5_harmless_call_rule.2 "fmt.Println").mp (by decide)⟩

/-- Sorting by position maps permuted inputs to the same output when the
positions are pairwise distinct. -/
theorem insertionSort_eq_of_perm {l₁ l₂ : List (Func × Param)}
    (hp : l₁.Perm l₂) (hnd : (l₁.map (fun c => c.2.pos)).Nodup) :
    l₁.insertionSort candLe = l₂.insertionSort candLe := by
  have hperm : (l₁.insertionSort candLe).Perm (l₂.insertionSort candLe) :=
    (List.perm_insertionSort _ _).trans
      (hp.trans (List.perm_insertionSort _ _).symm)
  have key : ∀ l : List (Func × Param), (l.map (fun c => c.2.pos)).Nodup →
      (l.insertionSort candLe).Pairwise candLt := by
    intro l hl
    have hs : (l.insertionSort candLe).Pairwise candLe :=
      List.sorted_insertionSort candLe l
    have hnd2 : ((l.insertionSort candLe).map (fun c => c.2.pos)).Nodup :=
      hl.perm ((List.perm_insertionSort candLe l).map _).symm
    have hne : (l.insertionSort candLe).Pairwise
        (fun a b => a.2.pos ≠ b.2.pos) := List.pairwise_map.mp hnd2
    exact (hs.and hne).imp (fun h => Nat.lt_of_le_of_ne h.1 h.2)
  have hnd' : (l₂.map (fun c => c.2.pos)).Nodup :=
    hnd.perm (hp.map _)
  exact List.eq_of_perm_of_sorted hperm (key l₁ hnd) (key l₂ hnd')

/-- Every pair of reported entries appears in ascending order of the
scalar position offset the source sorts by. -/
theorem reported_pairwise_pos (prog : Prog) :
    (reportedPairs prog).Pairwise candLe := by
  have hs : (sortedPotential prog.wantPkg prog.funcs).Pairwise candLe :=
    List.sorted_insertionSort candLe (potential prog.wantPkg prog.funcs)
  have hsub : List.Sublist (reportedPairs prog)
      (sortedPotential prog.wantPkg prog.funcs) := by
    unfold reportedPairs
    exact List.filter_sublist _
  exact List.Pairwise.sublist hsub hs

/-- C7 counterexample: the code sorts by the scalar `token.Pos` offset
only.  With a file set that registered `z.go` before `a.go` — offsets
follow registration order, not file-name order — the output lists the
`z.go` warning before the `a.go` warning, so the pair of reported lines
is not in ascending (file, line, column) order, refuting the claim. -/
theorem c7_counterexample :
    unusedParams progC7 =
        ["z.go:1:1: a is unused", "a.go:1:1: b is unused"] ∧
      ¬ (reportedPairs progC7).Pairwise
          (fun a b => posKeyLe (progC7.fset a.2.pos) (progC7.fset b.2.pos)) := by
  refine ⟨rfl, ?_⟩
  intro h
  have he : reportedPairs progC7 =
      [(fnC7, ⟨"a", 10, []⟩), (fnC7, ⟨"b", 20, []⟩)] := rfl
  rw [he] at h
  have h2 := (List.pairwise_cons.mp h).1 _ (List.Mem.head _)
  unfold posKeyLe at h2
  rcases h2 with hlt | ⟨heq, -⟩
  · exact absurd hlt (by decide)
  · exact absurd heq (by decide)

/-- C7 amended: warnings are sorted ascending by the scalar source
position offset — for every pair of reported lines, the one with the
smaller offset appears first.  This coincides with the (file, line,
column) key order exactly when the file set renders offsets
monotonically into that key (always within a single file; across files
only when registration order matches the file-key order).  And when
parameter positions are pairwise distinct — as a file set guarantees for
declared parameters — any position-sorted arrangement of the candidates
equals the list the analysis reports from, so the output ordering is
uniquely determined by the offsets: deterministic for identical input,
with stability vacuous. -/
theorem c7_amended_ordering :
    (∀ prog : Prog,
        (reportedPairs prog).Pairwise (fun a b => a.2.pos ≤ b.2.pos)) ∧
    (∀ prog : Prog,
        (∀ p q : Nat, p ≤ q → posKeyLe (prog.fset p) (prog.fset q)) →
        (reportedPairs prog).Pairwise
          (fun a b => posKeyLe (prog.fset a.2.pos) (prog.fset b.2.pos))) ∧
    (∀ (prog : Prog) (l : List (Func × Param)),
        l.Perm (potential prog.wantPkg prog.funcs) →
        l.Pairwise candLe →
        ((potential prog.wantPkg prog.funcs).map (fun c => c.2.pos)).Nodup →
        l = sortedPotential prog.wantPkg prog.funcs) := by
  refine ⟨?_, ?_, ?_⟩
  · intro prog
    exact reported_pairwise_pos prog
  · intro prog hmono
    exact (reported_pairwise_pos prog).imp (fun h => hmono _ _ h)
  · intro prog l hperm hsort hnd
    have h1 : l.insertionSort candLe = l :=
      List.Sorted.insertionSort_eq hsort
    have hndl : (l.map (fun c => c.2.pos)).Nodup :=
      hnd.perm (hperm.map _).symm
    have h2 : l.insertionSort candLe =
        (potential prog.wantPkg prog.funcs).insertionSort candLe :=
      insertionSort_eq_of_perm hperm hndl
    rw [← h1, h2]
    rfl

/-- Witness for C7 amended: at a one-file program with monotone
rendering, the reported pairs are offset-sorted and key-sorted, and the
explicitly given position-sorted candidate list is the one the analysis
uses. -/
theorem c7_amended_witness :
    (reportedPairs progW7).Pairwise (fun a b => a.2.pos ≤ b.2.pos) ∧
      (reportedPairs progW7).Pairwise
        (fun a b => posKeyLe (progW7.fset a.2.pos) (progW7.fset b.2.pos)) ∧
      [(fnW7, (⟨"a", 21, []⟩ : Param)), (fnW7, ⟨"b", 22, []⟩)] =
        sortedPotential progW7.wantPkg progW7.funcs :=
  ⟨c7_amended_ordering.1 progW7,
   c7_amended_ordering.2.1 progW7
     (fun p q h => Or.inr ⟨rfl, show p < q ∨ (p = q ∧ 3 ≤ 3) by omega⟩),
   c7_amended_ordering.2.2 progW7
     [(fnW7, ⟨"a", 21, []⟩), (fnW7, ⟨"b", 22, []⟩)]
     (List.Perm.refl _) (by decide) (by decide)⟩

/-- C8 counterexample: the claim says a path not under the working
directory is emitted unmodified, but the code's raw string-prefix test
fires on `/a/bc/f.go` with working directory `/a/b` and mangles the
position to `/f.go:3:5`. -/
theorem c8_counterexample :
    unusedParams progC8 = ["/f.go:3:5: x is unused"] ∧
      "/a/bc/f.go:3:5: x is unused" ∉ unusedParams progC8 :=
  ⟨rfl, by decide⟩

/-- C8 amended: every emitted warning has the form
`<position>: <name> is unused`, where the position string is shortened
by `len(wd)+1` characters exactly when the working directory is a string
prefix of the rendered position (which coincides with "rooted under the
working directory" only when the prefix is followed by a path
separator), and is emitted unmodified otherwise. -/
theorem c8_warning_format (prog : Prog) (w : String)
    (hw : w ∈ unusedParams prog) :
    ∃ c ∈ reportedPairs prog,
      w = relLine prog.wd (Position.str (prog.fset c.2.pos)) ++ ": " ++
          c.2.name ++ " is unused" ∧
        ((prog.wd.data.isPrefixOf (Position.str (prog.fset c.2.pos)).data = true ∧
            relLine prog.wd (Position.str (prog.fset c.2.pos)) =
              ⟨(Position.str (prog.fset c.2.pos)).data.drop (prog.wd.length + 1)⟩) ∨
          (prog.wd.data.isPrefixOf (Position.str (prog.fset c.2.pos)).data = false ∧
            relLine prog.wd (Position.str (prog.fset c.2.pos)) =
              Position.str (prog.fset c.2.pos))) := by
  rw [unusedParams] at hw
  obtain ⟨c, hc, hren⟩ := List.mem_map.mp hw
  refine ⟨c, hc, by rw [← hren]; rfl, ?_⟩
  by_cases hp : prog.wd.data.isPrefixOf (Position.str (prog.fset c.2.pos)).data = true
  · exact Or.inl ⟨hp, by rw [relLine, if_pos hp]⟩
  · have hp2 : prog.wd.data.isPrefixOf (Position.str (prog.fset c.2.pos)).data = false :=
      Bool.eq_false_iff.mpr hp
    exact Or.inr ⟨hp2, by rw [relLine, if_neg hp]⟩

/-- Witness for C8 amended, at the prefix-collision program. -/
theorem c8_witness :
    ∃ c ∈ reportedPairs progC8,
      "/f.go:3:5: x is unused" =
          relLine progC8.wd (Position.str (progC8.fset c.2.pos)) ++ ": " ++
            c.2.name ++ " is unused" ∧
        ((progC8.wd.data.isPrefixOf
              (Position.str (progC8.fset c.2.pos)).data = true ∧
            relLine progC8.wd (Position.str (progC8.fset c.2.pos)) =
              ⟨(Position.str (progC8.fset c.2.pos)).data.drop
                  (progC8.wd.length + 1)⟩) ∨
          (progC8.wd.data.isPrefixOf
              (Position.str (progC8.fset c.2.pos)).data = false ∧
            relLine progC8.wd (Position.str (progC8.fset c.2.pos)) =
              Position.str (progC8.fset c.2.pos))) :=
  c8_warning_format progC8 "/f.go:3:5: x is unused" (by decide)

theorem stFlatMap_fst {α β : Type} (f : String → α → List β × String)
    (g : α → List β) (h : ∀ b a, (f b a).1 = g a) :
    ∀ (buf : String) (as : List α), (stFlatMap f buf as).1 = as.flatMap g := by
  intro buf as
  induction as generalizing buf with
  | nil => rfl
  | cons a as ih => simp [stFlatMap, h, ih]

theorem addSignB_fst (buf : String) (t : Ty) :
    (addSignB buf t).1 = addSign t := by
  cases t with
  | base s => rfl
  | func ps rs =>
    by_cases h : (ps.toList.length == 0) = true
    · simp [addSignB, addSign, h]
    · have h2 : (ps.toList.length == 0) = false := Bool.eq_false_iff.mpr h
      simp [addSignB, addSign, h2, signStringB, signString]

theorem memberSignsB_fst (buf : String) (mb : Member) :
    (memberSignsB buf mb).1 = memberSigns mb := by
  cases mb with
  | func ps rs => exact stFlatMap_fst addSignB addSign addSignB_fst buf ps.toList
  | typ u =>
    cases u with
    | strct fields => exact stFlatMap_fst addSignB addSign addSignB_fst buf fields
    | iface methods =>
        exact stFlatMap_fst _ (fun m => addSign (Ty.func m.1 m.2))
          (fun b m => addSignB_fst b _) buf methods
    | sig ps rs => exact addSignB_fst buf _
    | otherTy => rfl
  | otherMember => rfl

theorem funcSignsB_fst (buf : String) (pkgs : List Package) :
    (funcSignsB buf pkgs).1 = funcSigns pkgs := by
  unfold funcSignsB funcSigns
  exact stFlatMap_fst _ (fun pkg => pkg.members.flatMap memberSigns)
    (fun b pkg =>
      stFlatMap_fst memberSignsB memberSigns memberSignsB_fst b pkg.members)
    buf pkgs

theorem reportB_fst (signs : List String) (wd : String)
    (fset : Nat → Position) :
    ∀ (buf : String) (cs : List (Func × Param)),
      (reportB signs wd fset buf cs).1 =
        (cs.filter (fun c => !signs.contains
            (signString c.1.sigParams c.1.sigResults))).map
          (renderWarn wd fset) := by
  intro buf cs
  induction cs generalizing buf with
  | nil => rfl
  | cons c cs ih =>
    rw [reportB]
    simp only [signStringB_fst]
    by_cases h : signs.contains (signString c.1.sigParams c.1.sigResults) = true
    · rw [if_pos h, ih, List.filter_cons, if_neg (by rw [h]; simp)]
    · have h2 : signs.contains (signString c.1.sigParams c.1.sigResults) = false :=
        Bool.eq_false_iff.mpr h
      rw [if_neg h, List.filter_cons, if_pos (by rw [h2]; rfl)]
      simp [ih]

/-- The warnings computed through the shared buffer coincide with the
buffer-free model, whatever the initial buffer contents. -/
theorem unusedParamsB_fst (prog : Prog) (buf : String) :
    (unusedParamsB prog buf).1 = unusedParams prog := by
  unfold unusedParamsB unusedParams reportedPairs
  rw [reportB_fst, funcSignsB_fst]

theorem potential_perm {want : List Nat} {funcs funcs' : List Func}
    (h : funcs.Perm funcs') :
    (potential want funcs).Perm (potential want funcs') :=
  h.flatMap_right (funcCandidates want)

theorem flatMap_sublist {α β : Type} (l : List α) (f g : α → List β)
    (h : ∀ a ∈ l, List.Sublist (f a) (g a)) :
    List.Sublist (l.flatMap f) (l.flatMap g) := by
  induction l with
  | nil => simp
  | cons a as ih =>
    simp only [List.flatMap_cons]
    exact List.Sublist.append (h a (List.mem_cons_self a as))
      (ih fun b hb => h b (List.mem_cons_of_mem _ hb))

/-- The positions of a function's candidates form a sublist of the
positions of its parameters. -/
theorem funcCandidates_pos_sublist (want : List Nat) (fn : Func) :
    List.Sublist ((funcCandidates want fn).map (fun c => c.2.pos))
      (fn.params.map Param.pos) := by
  unfold funcCandidates
  split
  · simp
  · split
    · simp
    · split
      · simp
      · split
        · simp
        · rw [List.map_map]
          have h1 : List.Sublist (fn.params.enum.filter (keepParam fn))
              fn.params.enum := List.filter_sublist _
          have h2 := h1.map (fun ip : Nat × Param => ip.2.pos)
          have h3 : fn.params.enum.map (fun ip : Nat × Param => ip.2.pos) =
              fn.params.map Param.pos := by
            rw [show (fun ip : Nat × Param => ip.2.pos) =
                (Param.pos ∘ Prod.snd) from rfl,
              ← List.map_map, List.enum_map_snd]
          rw [h3] at h2
          exact h2

/-- The positions of all candidates form a sublist of the positions of
all parameters of all functions. -/
theorem potential_pos_sublist (want : List Nat) (funcs : List Func) :
    List.Sublist ((potential want funcs).map (fun c => c.2.pos))
      (funcs.flatMap (fun fn => fn.params.map Param.pos)) := by
  unfold potential
  rw [List.map_flatMap]
  exact flatMap_sublist _ _ _ (fun fn _ => funcCandidates_pos_sublist want fn)

/-- The sorted candidate list does not depend on the order in which the
functions are enumerated, when parameter positions are pairwise
distinct. -/
theorem sortedPotential_perm_eq {want : List Nat} {funcs funcs' : List Func}
    (h : funcs.Perm funcs')
    (hnd : (funcs.flatMap (fun fn => fn.params.map Param.pos)).Nodup) :
    sortedPotential want funcs = sortedPotential want funcs' := by
  unfold sortedPotential
  exact insertionSort_eq_of_perm (potential_perm h)
    ((potential_pos_sublist want funcs).nodup hnd)

/-- C9: idempotence and determinism.  For a fixed program model and
working directory, the warning list does not depend on the contents the
shared signature-rendering buffer starts with (so consecutive runs, each
inheriting the previous run's buffer, emit identical output), nor on the
order in which the function map is enumerated, provided parameter
positions are pairwise distinct as a file set guarantees. -/
theorem c9_idempotent_deterministic (pkgs : List Package)
    (funcs funcs' : List Func) (want : List Nat) (fset : Nat → Position)
    (wd b b' : String) (hperm : funcs.Perm funcs')
    (hnd : (funcs.flatMap (fun fn => fn.params.map Param.pos)).Nodup) :
    (unusedParamsB ⟨pkgs, funcs, want, fset, wd⟩ b).1 =
      (unusedParamsB ⟨pkgs, funcs', want, fset, wd⟩ b').1 := by
  rw [unusedParamsB_fst, unusedParamsB_fst]
  unfold unusedParams reportedPairs
  dsimp only
  rw [sortedPotential_perm_eq hperm hnd]

/-- Witness for C9: two enumeration orders of a two-function program and
two different starting buffers give the same warning list. -/
theorem c9_witness :
    (unusedParamsB ⟨[⟨[]⟩], [fnW9a, fnW9b], [0],
        fun n => ⟨"m.go", n, 1⟩, "/w"⟩ "stale buffer contents").1 =
      (unusedParamsB ⟨[⟨[]⟩], [fnW9b, fnW9a], [0],
        fun n => ⟨"m.go", n, 1⟩, "/w"⟩ "").1 :=
  c9_idempotent_deterministic [⟨[]⟩] [fnW9a, fnW9b] [fnW9b, fnW9a] [0]
    (fun n => ⟨"m.go", n, 1⟩) "/w" "stale buffer contents" ""
    (List.Perm.swap fnW9b fnW9a []) (by decide)

end Unparam
